import Mathlib

set_option maxHeartbeats 1000000

/-!
Shallow embedding of the linkedin-leads-extractor lead pipeline.

The repository's visible source is the React dashboard under
`src/frontend`; the backend components that the specification describes
(`LeadDeduplicator`, `PostAggregate`, `ExportGenerator`) are not present
in the source tree, so they are modelled here from the specification's
words (each such definition's doc comment starts with
`Modelled from the spec:`).  The frontend request-building logic
(`handleSubmit` in `ExtractLeads.jsx`, `loadData` in `PostDetails.jsx`,
`getPostLeads` in `services/api.js`) is embedded directly from the
JavaScript source.
-/

/-- Modelled from the spec: `interaction_type ∈ {like, comment, both}`. -/
inductive InteractionType
  | like
  | comment
  | both
  deriving DecidableEq, Repr

/-- Modelled from the spec: a raw interaction event from the provider,
carrying an optional stable profile key and display attributes. -/
structure RawInteraction where
  profileKey : Option String
  fullName : String
  deriving DecidableEq, Repr

/-- Modelled from the spec: a Lead record.  `headline`, `company`,
`location`, `profileUrl` are the enrichment payload fields (nullable
until enriched). -/
structure Lead where
  profileKey : String
  fullName : String
  headline : Option String
  company : Option String
  location : Option String
  profileUrl : Option String
  interactionType : InteractionType
  commentCount : Nat
  enriched : Bool
  deriving DecidableEq, Repr

/-- Union of an interaction type with a new like event. -/
def InteractionType.withLike : InteractionType → InteractionType
  | .like => .like
  | .comment => .both
  | .both => .both

/-- Union of an interaction type with a new comment event. -/
def InteractionType.withComment : InteractionType → InteractionType
  | .like => .both
  | .comment => .comment
  | .both => .both

namespace LeadDeduplicator

/-- Accumulator map from profile key to the Lead built so far,
as an insertion-ordered association list. -/
abbrev Acc := List (String × Lead)

/-- Update the entry at key `k` in place if present, else append a new
entry built by `f none`. -/
def upsert (k : String) (f : Option Lead → Lead) : Acc → Acc
  | [] => [(k, f none)]
  | (k', v) :: rest =>
      if k' = k then (k, f (some v)) :: rest else (k', v) :: upsert k f rest

/-- Modelled from the spec: a fresh accumulator entry for a profile key
first seen in an interaction event (merge-produced Leads start
unenriched with empty payload). -/
def freshLead (k : String) (r : RawInteraction) (t : InteractionType) (cc : Nat) : Lead :=
  { profileKey := k, fullName := r.fullName, headline := none, company := none,
    location := none, profileUrl := none, interactionType := t,
    commentCount := cc, enriched := false }

/-- Modelled from the spec: effect of one liker event on the accumulator
entry for its key: `interaction_type |= like`; display attributes
last-observed-wins. -/
def likeUpdate (r : RawInteraction) (k : String) : Option Lead → Lead
  | none => freshLead k r .like 0
  | some l => { l with fullName := r.fullName,
                       interactionType := l.interactionType.withLike }

/-- Modelled from the spec: effect of one commenter event:
`interaction_type |= comment`, `comment_count += 1` (one increment per
comment event); display attributes last-observed-wins. -/
def commentUpdate (r : RawInteraction) (k : String) : Option Lead → Lead
  | none => freshLead k r .comment 1
  | some l => { l with fullName := r.fullName,
                       interactionType := l.interactionType.withComment,
                       commentCount := l.commentCount + 1 }

/-- Modelled from the spec: process one liker event; an event with no
resolvable profile key is dropped. -/
def applyLiker (acc : Acc) (r : RawInteraction) : Acc :=
  match r.profileKey with
  | none => acc
  | some k => upsert k (likeUpdate r k) acc

/-- Modelled from the spec: process one commenter event; an event with no
resolvable profile key is dropped. -/
def applyCommenter (acc : Acc) (r : RawInteraction) : Acc :=
  match r.profileKey with
  | none => acc
  | some k => upsert k (commentUpdate r k) acc

/-- The accumulator after processing all likers then all commenters
(commenter events thereby take precedence for display attributes). -/
def mergeAcc (likers commenters : List RawInteraction) : Acc :=
  commenters.foldl applyCommenter (likers.foldl applyLiker [])

/-- Modelled from the spec: `merge(likers, commenters) -> seq<Lead>`,
the deduplicated Lead sequence keyed by profile key. -/
def merge (likers commenters : List RawInteraction) : List Lead :=
  (mergeAcc likers commenters).map Prod.snd

/-- Keys of an accumulator. -/
def keys (acc : Acc) : List String := acc.map Prod.fst

/-- Look up the Lead stored at a key. -/
def lookupKey (k : String) : Acc → Option Lead
  | [] => none
  | (k', v) :: rest => if k' = k then some v else lookupKey k rest

/-- Comment count stored at a key (0 when absent). -/
def countAt (acc : Acc) (k : String) : Nat :=
  (lookupKey k acc).elim 0 Lead.commentCount

/-- Interaction type stored at a key. -/
def typeAt (acc : Acc) (k : String) : Option InteractionType :=
  (lookupKey k acc).map Lead.interactionType

theorem mem_keys_upsert (k x : String) (f : Option Lead → Lead) (acc : Acc) :
    x ∈ keys (upsert k f acc) ↔ x = k ∨ x ∈ keys acc := by
  induction acc with
  | nil => simp [upsert, keys]
  | cons hd tl ih =>
    obtain ⟨k', v⟩ := hd
    by_cases hk : k' = k
    · subst hk
      simp [upsert, keys, or_comm, or_assoc, or_left_comm]
    · simp only [upsert, if_neg hk, keys, List.map_cons, List.mem_cons]
      rw [show keys (upsert k f tl) = List.map Prod.fst (upsert k f tl) from rfl] at ih
      rw [show keys tl = List.map Prod.fst tl from rfl] at ih
      constructor
      · rintro (h | h)
        · right; left; exact h
        · rcases ih.mp h with h | h
          · left; exact h
          · right; right; exact h
      · rintro (h | h | h)
        · right; exact ih.mpr (Or.inl h)
        · left; exact h
        · right; exact ih.mpr (Or.inr h)

theorem keys_nodup_upsert (k : String) (f : Option Lead → Lead) (acc : Acc)
    (h : (keys acc).Nodup) : (keys (upsert k f acc)).Nodup := by
  induction acc with
  | nil => simp [upsert, keys]
  | cons hd tl ih =>
    obtain ⟨k', v⟩ := hd
    simp only [keys, List.map_cons, List.nodup_cons] at h
    by_cases hk : k' = k
    · subst hk
      simpa [upsert, keys, List.nodup_cons] using h
    · simp only [upsert, if_neg hk, keys, List.map_cons, List.nodup_cons]
      refine ⟨fun hmem => ?_, ih h.2⟩
      rcases (mem_keys_upsert k k' f tl).mp hmem with h' | h'
      · exact hk h'
      · exact h.1 h'

theorem lookupKey_upsert_self (k : String) (f : Option Lead → Lead) (acc : Acc) :
    lookupKey k (upsert k f acc) = some (f (lookupKey k acc)) := by
  induction acc with
  | nil => simp [upsert, lookupKey]
  | cons hd tl ih =>
    obtain ⟨k', v⟩ := hd
    by_cases hk : k' = k
    · subst hk
      simp [upsert, lookupKey]
    · simp [upsert, lookupKey, if_neg hk, ih]

theorem lookupKey_upsert_other (k k'' : String) (f : Option Lead → Lead) (acc : Acc)
    (hne : k'' ≠ k) : lookupKey k'' (upsert k f acc) = lookupKey k'' acc := by
  induction acc with
  | nil =>
    simp only [upsert, lookupKey]
    rw [if_neg (fun h : k = k'' => hne h.symm)]
  | cons hd tl ih =>
    obtain ⟨k', v⟩ := hd
    by_cases hk : k' = k
    · simp only [upsert, if_pos hk, lookupKey]
      rw [if_neg (fun h : k = k'' => hne h.symm),
        if_neg (fun h : k' = k'' => hne (hk ▸ h).symm)]
    · simp [upsert, lookupKey, if_neg hk, ih]

theorem mem_upsert (k : String) (f : Option Lead → Lead) (acc : Acc)
    (kv : String × Lead) (h : kv ∈ upsert k f acc) :
    kv ∈ acc ∨ kv = (k, f none) ∨ ∃ v, (k, v) ∈ acc ∧ kv = (k, f (some v)) := by
  induction acc with
  | nil => simp only [upsert, List.mem_singleton] at h; exact Or.inr (Or.inl h)
  | cons hd tl ih =>
    obtain ⟨k', v⟩ := hd
    by_cases hk : k' = k
    · simp only [upsert, if_pos hk, List.mem_cons] at h
      rcases h with h | h
      · subst hk; exact Or.inr (Or.inr ⟨v, List.mem_cons_self _ _, h⟩)
      · exact Or.inl (List.mem_cons_of_mem _ h)
    · simp only [upsert, if_neg hk, List.mem_cons] at h
      rcases h with h | h
      · exact Or.inl (by simp [h])
      · rcases ih h with h' | h' | ⟨w, hw, hkv⟩
        · exact Or.inl (List.mem_cons_of_mem _ h')
        · exact Or.inr (Or.inl h')
        · exact Or.inr (Or.inr ⟨w, List.mem_cons_of_mem _ hw, hkv⟩)

/-- Well-formedness of the accumulator: keys are unique, and each stored
Lead records the profile key it is filed under. -/
def WF (acc : Acc) : Prop :=
  (keys acc).Nodup ∧ ∀ kv ∈ acc, (Prod.snd kv).profileKey = kv.1

theorem wf_upsert (k : String) (f : Option Lead → Lead) (acc : Acc)
    (hf0 : (f none).profileKey = k)
    (hf1 : ∀ l, l.profileKey = k → (f (some l)).profileKey = k)
    (h : WF acc) : WF (upsert k f acc) := by
  refine ⟨keys_nodup_upsert k f acc h.1, fun kv hkv => ?_⟩
  rcases mem_upsert k f acc kv hkv with h' | h' | ⟨v, hv, h'⟩
  · exact h.2 kv h'
  · subst h'; exact hf0
  · subst h'; exact hf1 v (h.2 (k, v) hv)

theorem wf_applyLiker (acc : Acc) (r : RawInteraction) (h : WF acc) :
    WF (applyLiker acc r) := by
  unfold applyLiker
  cases hr : r.profileKey with
  | none => exact h
  | some k =>
    refine wf_upsert k _ acc rfl (fun l hl => ?_) h
    simp [likeUpdate, hl]

theorem wf_applyCommenter (acc : Acc) (r : RawInteraction) (h : WF acc) :
    WF (applyCommenter acc r) := by
  unfold applyCommenter
  cases hr : r.profileKey with
  | none => exact h
  | some k =>
    refine wf_upsert k _ acc rfl (fun l hl => ?_) h
    simp [commentUpdate, hl]

theorem wf_foldl_likers (ls : List RawInteraction) (acc : Acc) (h : WF acc) :
    WF (ls.foldl applyLiker acc) := by
  induction ls generalizing acc with
  | nil => exact h
  | cons r rest ih => exact ih _ (wf_applyLiker acc r h)

theorem wf_foldl_commenters (cs : List RawInteraction) (acc : Acc) (h : WF acc) :
    WF (cs.foldl applyCommenter acc) := by
  induction cs generalizing acc with
  | nil => exact h
  | cons r rest ih => exact ih _ (wf_applyCommenter acc r h)

theorem wf_nil : WF [] := ⟨List.nodup_nil, by simp⟩

theorem wf_mergeAcc (ls cs : List RawInteraction) : WF (mergeAcc ls cs) :=
  wf_foldl_commenters cs _ (wf_foldl_likers ls [] wf_nil)

theorem lookupKey_applyCommenter (acc : Acc) (r : RawInteraction) (k : String) :
    lookupKey k (applyCommenter acc r) =
      if r.profileKey = some k then some (commentUpdate r k (lookupKey k acc))
      else lookupKey k acc := by
  unfold applyCommenter
  cases hr : r.profileKey with
  | none => simp
  | some k' =>
    by_cases hk : k' = k
    · subst hk
      simp [lookupKey_upsert_self]
    · rw [if_neg (by simpa using fun h => hk h)]
      exact lookupKey_upsert_other k' k _ acc (fun h => hk h.symm)

theorem lookupKey_applyLiker (acc : Acc) (r : RawInteraction) (k : String) :
    lookupKey k (applyLiker acc r) =
      if r.profileKey = some k then some (likeUpdate r k (lookupKey k acc))
      else lookupKey k acc := by
  unfold applyLiker
  cases hr : r.profileKey with
  | none => simp
  | some k' =>
    by_cases hk : k' = k
    · subst hk
      simp [lookupKey_upsert_self]
    · rw [if_neg (by simpa using fun h => hk h)]
      exact lookupKey_upsert_other k' k _ acc (fun h => hk h.symm)

theorem countAt_applyLiker (acc : Acc) (r : RawInteraction) (k : String) :
    countAt (applyLiker acc r) k = countAt acc k := by
  unfold countAt
  rw [lookupKey_applyLiker]
  by_cases hr : r.profileKey = some k
  · rw [if_pos hr]
    cases lookupKey k acc with
    | none => simp [likeUpdate, freshLead]
    | some l => simp [likeUpdate]
  · rw [if_neg hr]

theorem countAt_applyCommenter (acc : Acc) (r : RawInteraction) (k : String) :
    countAt (applyCommenter acc r) k =
      countAt acc k + (if r.profileKey = some k then 1 else 0) := by
  unfold countAt
  rw [lookupKey_applyCommenter]
  by_cases hr : r.profileKey = some k
  · rw [if_pos hr, if_pos hr]
    cases lookupKey k acc with
    | none => simp [commentUpdate, freshLead]
    | some l => simp [commentUpdate]
  · rw [if_neg hr, if_neg hr, Nat.add_zero]

theorem countAt_foldl_likers (ls : List RawInteraction) (acc : Acc) (k : String) :
    countAt (ls.foldl applyLiker acc) k = countAt acc k := by
  induction ls generalizing acc with
  | nil => rfl
  | cons r rest ih => rw [List.foldl_cons, ih, countAt_applyLiker]

theorem countAt_foldl_commenters (cs : List RawInteraction) (acc : Acc) (k : String) :
    countAt (cs.foldl applyCommenter acc) k =
      countAt acc k + cs.countP (fun c => decide (c.profileKey = some k)) := by
  induction cs generalizing acc with
  | nil => simp
  | cons c rest ih =>
    rw [List.foldl_cons, ih, countAt_applyCommenter, List.countP_cons]
    by_cases hc : c.profileKey = some k
    · simp [hc, Nat.add_assoc, Nat.add_comm]
    · simp [hc]

theorem countAt_nil (k : String) : countAt [] k = 0 := rfl

theorem typeAt_applyLiker_likeish (acc : Acc) (r : RawInteraction) (k : String)
    (h : typeAt acc k = none ∨ typeAt acc k = some .like) :
    typeAt (applyLiker acc r) k = none ∨ typeAt (applyLiker acc r) k = some .like := by
  unfold typeAt at *
  rw [lookupKey_applyLiker]
  by_cases hr : r.profileKey = some k
  · rw [if_pos hr]
    right
    cases hl : lookupKey k acc with
    | none => simp [likeUpdate, freshLead]
    | some l =>
      rw [hl] at h
      rcases h with h | h
      · exact absurd h (by simp)
      · have hty : l.interactionType = .like := by simpa using h
        simp [likeUpdate, hty, InteractionType.withLike]
  · rw [if_neg hr]; exact h

theorem typeAt_applyLiker_mem (acc : Acc) (r : RawInteraction) (k : String)
    (hr : r.profileKey = some k)
    (h : typeAt acc k = none ∨ typeAt acc k = some .like) :
    typeAt (applyLiker acc r) k = some .like := by
  unfold typeAt at *
  rw [lookupKey_applyLiker, if_pos hr]
  cases hl : lookupKey k acc with
  | none => simp [likeUpdate, freshLead]
  | some l =>
    rw [hl] at h
    rcases h with h | h
    · exact absurd h (by simp)
    · have hty : l.interactionType = .like := by simpa using h
      simp [likeUpdate, hty, InteractionType.withLike]

theorem typeAt_applyLiker_like (acc : Acc) (r : RawInteraction) (k : String)
    (h : typeAt acc k = some .like) :
    typeAt (applyLiker acc r) k = some .like := by
  rcases typeAt_applyLiker_likeish acc r k (Or.inr h) with h' | h'
  · exfalso
    unfold typeAt at *
    rw [lookupKey_applyLiker] at h'
    by_cases hr : r.profileKey = some k
    · rw [if_pos hr] at h'; simp at h'
    · rw [if_neg hr] at h'; rw [h'] at h; simp at h
  · exact h'

theorem typeAt_foldl_likers_likeish (ls : List RawInteraction) (acc : Acc) (k : String)
    (h : typeAt acc k = none ∨ typeAt acc k = some .like) :
    typeAt (ls.foldl applyLiker acc) k = none ∨
      typeAt (ls.foldl applyLiker acc) k = some .like := by
  induction ls generalizing acc with
  | nil => exact h
  | cons r rest ih => exact ih _ (typeAt_applyLiker_likeish acc r k h)

theorem typeAt_foldl_likers_like (ls : List RawInteraction) (acc : Acc) (k : String)
    (h : typeAt acc k = some .like) :
    typeAt (ls.foldl applyLiker acc) k = some .like := by
  induction ls generalizing acc with
  | nil => exact h
  | cons r rest ih => exact ih _ (typeAt_applyLiker_like acc r k h)

theorem typeAt_foldl_likers_mem (ls : List RawInteraction) (acc : Acc) (k : String)
    (h : typeAt acc k = none ∨ typeAt acc k = some .like)
    (hmem : ∃ r ∈ ls, r.profileKey = some k) :
    typeAt (ls.foldl applyLiker acc) k = some .like := by
  induction ls generalizing acc with
  | nil => simp at hmem
  | cons r rest ih =>
    rw [List.foldl_cons]
    by_cases hr : r.profileKey = some k
    · exact typeAt_foldl_likers_like rest _ k (typeAt_applyLiker_mem acc r k hr h)
    · rcases hmem with ⟨r', hr', hk'⟩
      rcases List.mem_cons.mp hr' with rfl | hr'
      · exact absurd hk' hr
      · exact ih _ (typeAt_applyLiker_likeish acc r k h) ⟨r', hr', hk'⟩

theorem typeAt_applyCommenter_both_of_like (acc : Acc) (r : RawInteraction) (k : String)
    (hr : r.profileKey = some k) (h : typeAt acc k = some .like) :
    typeAt (applyCommenter acc r) k = some .both := by
  unfold typeAt at *
  rw [lookupKey_applyCommenter, if_pos hr]
  cases hl : lookupKey k acc with
  | none => rw [hl] at h; simp at h
  | some l =>
    rw [hl] at h
    have hty : l.interactionType = .like := by simpa using h
    simp [commentUpdate, hty, InteractionType.withComment]

theorem typeAt_applyCommenter_both (acc : Acc) (r : RawInteraction) (k : String)
    (h : typeAt acc k = some .both) :
    typeAt (applyCommenter acc r) k = some .both := by
  unfold typeAt at *
  rw [lookupKey_applyCommenter]
  by_cases hr : r.profileKey = some k
  · rw [if_pos hr]
    cases hl : lookupKey k acc with
    | none => rw [hl] at h; simp at h
    | some l =>
      rw [hl] at h
      have hty : l.interactionType = .both := by simpa using h
      simp [commentUpdate, hty, InteractionType.withComment]
  · rw [if_neg hr]; exact h

theorem typeAt_foldl_commenters_both (cs : List RawInteraction) (acc : Acc) (k : String)
    (h : typeAt acc k = some .both) :
    typeAt (cs.foldl applyCommenter acc) k = some .both := by
  induction cs generalizing acc with
  | nil => exact h
  | cons r rest ih => exact ih _ (typeAt_applyCommenter_both acc r k h)

theorem typeAt_foldl_commenters_mem (cs : List RawInteraction) (acc : Acc) (k : String)
    (h : typeAt acc k = some .like)
    (hmem : ∃ c ∈ cs, c.profileKey = some k) :
    typeAt (cs.foldl applyCommenter acc) k = some .both := by
  induction cs generalizing acc with
  | nil => simp at hmem
  | cons c rest ih =>
    rw [List.foldl_cons]
    by_cases hc : c.profileKey = some k
    · exact typeAt_foldl_commenters_both rest _ k
        (typeAt_applyCommenter_both_of_like acc c k hc h)
    · have hsame : typeAt (applyCommenter acc c) k = typeAt acc k := by
        unfold typeAt
        rw [lookupKey_applyCommenter, if_neg hc]
      rcases hmem with ⟨c', hc', hk'⟩
      rcases List.mem_cons.mp hc' with rfl | hc'
      · exact absurd hk' hc
      · exact ih _ (hsame.trans h) ⟨c', hc', hk'⟩

theorem mem_keys_applyLiker (acc : Acc) (r : RawInteraction) (x : String) :
    x ∈ keys (applyLiker acc r) ↔ x ∈ keys acc ∨ r.profileKey = some x := by
  unfold applyLiker
  cases hr : r.profileKey with
  | none => simp
  | some k => rw [mem_keys_upsert]; simp [eq_comm, or_comm]

theorem mem_keys_applyCommenter (acc : Acc) (r : RawInteraction) (x : String) :
    x ∈ keys (applyCommenter acc r) ↔ x ∈ keys acc ∨ r.profileKey = some x := by
  unfold applyCommenter
  cases hr : r.profileKey with
  | none => simp
  | some k => rw [mem_keys_upsert]; simp [eq_comm, or_comm]

theorem mem_keys_foldl_likers (ls : List RawInteraction) (acc : Acc) (x : String) :
    x ∈ keys (ls.foldl applyLiker acc) ↔
      x ∈ keys acc ∨ ∃ r ∈ ls, r.profileKey = some x := by
  induction ls generalizing acc with
  | nil => simp
  | cons r rest ih =>
    rw [List.foldl_cons, ih, mem_keys_applyLiker]
    simp only [List.mem_cons]
    constructor
    · rintro ((h | h) | ⟨r', hr', hx⟩)
      · exact Or.inl h
      · exact Or.inr ⟨r, Or.inl rfl, h⟩
      · exact Or.inr ⟨r', Or.inr hr', hx⟩
    · rintro (h | ⟨r', (rfl | hr'), hx⟩)
      · exact Or.inl (Or.inl h)
      · exact Or.inl (Or.inr hx)
      · exact Or.inr ⟨r', hr', hx⟩

theorem mem_keys_foldl_commenters (cs : List RawInteraction) (acc : Acc) (x : String) :
    x ∈ keys (cs.foldl applyCommenter acc) ↔
      x ∈ keys acc ∨ ∃ c ∈ cs, c.profileKey = some x := by
  induction cs generalizing acc with
  | nil => simp
  | cons r rest ih =>
    rw [List.foldl_cons, ih, mem_keys_applyCommenter]
    simp only [List.mem_cons]
    constructor
    · rintro ((h | h) | ⟨r', hr', hx⟩)
      · exact Or.inl h
      · exact Or.inr ⟨r, Or.inl rfl, h⟩
      · exact Or.inr ⟨r', Or.inr hr', hx⟩
    · rintro (h | ⟨r', (rfl | hr'), hx⟩)
      · exact Or.inl (Or.inl h)
      · exact Or.inl (Or.inr hx)
      · exact Or.inr ⟨r', hr', hx⟩

theorem mem_keys_mergeAcc (ls cs : List RawInteraction) (x : String) :
    x ∈ keys (mergeAcc ls cs) ↔
      (∃ r ∈ ls, r.profileKey = some x) ∨ ∃ c ∈ cs, c.profileKey = some x := by
  unfold mergeAcc
  rw [mem_keys_foldl_commenters, mem_keys_foldl_likers]
  simp [keys, or_comm]

theorem lookup_of_mem_wf (acc : Acc) (k : String) (l : Lead)
    (hwf : WF acc) (h : (k, l) ∈ acc) : lookupKey k acc = some l := by
  induction acc with
  | nil => simp at h
  | cons hd tl ih =>
    obtain ⟨k', v⟩ := hd
    rcases List.mem_cons.mp h with h' | h'
    · injection h' with h1 h2
      simp [lookupKey, h1, h2]
    · have hk' : k' ≠ k := by
        intro hkk
        have hmem : k ∈ keys tl := by
          simpa [keys] using List.mem_map_of_mem Prod.fst h'
        have hnd : (k' :: keys tl).Nodup := hwf.1
        exact (List.nodup_cons.mp hnd).1 (hkk ▸ hmem)
      have hwftl : WF tl :=
        ⟨(List.nodup_cons.mp hwf.1).2, fun kv hkv => hwf.2 kv (List.mem_cons_of_mem _ hkv)⟩
      simp [lookupKey, hk', ih hwftl h']

theorem mem_of_lookup (acc : Acc) (k : String) (l : Lead)
    (h : lookupKey k acc = some l) : (k, l) ∈ acc := by
  induction acc with
  | nil => simp [lookupKey] at h
  | cons hd tl ih =>
    obtain ⟨k', v⟩ := hd
    by_cases hk : k' = k
    · have hv : lookupKey k ((k', v) :: tl) = some v := by
        simp [lookupKey, hk]
      rw [hv] at h
      injection h with h
      rw [hk, h]
      exact List.mem_cons_self _ _
    · simp only [lookupKey, if_neg hk] at h
      exact List.mem_cons_of_mem _ (ih h)

theorem mem_merge_lookup (ls cs : List RawInteraction) (l : Lead)
    (h : l ∈ merge ls cs) :
    lookupKey l.profileKey (mergeAcc ls cs) = some l := by
  unfold merge at h
  rcases List.mem_map.mp h with ⟨kv, hkv, hsnd⟩
  have hwf := wf_mergeAcc ls cs
  have hkey : kv.2.profileKey = kv.1 := hwf.2 kv hkv
  have heq : (l.profileKey, l) = kv := by
    obtain ⟨k, v⟩ := kv
    simp only at hsnd hkey
    subst hsnd
    simp [hkey]
  exact lookup_of_mem_wf _ _ _ hwf (heq ▸ hkv)

end LeadDeduplicator

/-- Modelled from the spec: the number of distinct resolvable profile keys
in an interaction stream. -/
def distinctProfileKeys (events : List RawInteraction) : Nat :=
  (events.filterMap RawInteraction.profileKey).dedup.length

/-- Claim C1: for every pair of input sequences (likers, commenters), the
sequence returned by `LeadDeduplicator.merge` contains no two Leads sharing
the same profile key. -/
theorem merge_no_shared_profile_key (likers commenters : List RawInteraction) :
    (LeadDeduplicator.merge likers commenters).Pairwise
      (fun a b => a.profileKey ≠ b.profileKey) := by
  have hwf := LeadDeduplicator.wf_mergeAcc likers commenters
  have hkeys : (LeadDeduplicator.keys (LeadDeduplicator.mergeAcc likers commenters)).Nodup :=
    hwf.1
  have hmap : (LeadDeduplicator.merge likers commenters).map Lead.profileKey
      = LeadDeduplicator.keys (LeadDeduplicator.mergeAcc likers commenters) := by
    unfold LeadDeduplicator.merge LeadDeduplicator.keys
    rw [List.map_map]
    exact List.map_congr_left (fun kv hkv => hwf.2 kv hkv)
  have hnd : ((LeadDeduplicator.merge likers commenters).map Lead.profileKey).Nodup :=
    hmap ▸ hkeys
  exact List.pairwise_map.mp hnd

/-- Claim C2: a profile key appearing in both the likers and the commenters
stream yields exactly one Lead in the output of `LeadDeduplicator.merge`,
and that Lead has `interaction_type = both`. -/
theorem merge_both_streams_unique_both (k : String)
    (likers commenters : List RawInteraction)
    (hl : ∃ r ∈ likers, r.profileKey = some k)
    (hc : ∃ c ∈ commenters, c.profileKey = some k) :
    (∃! l, l ∈ LeadDeduplicator.merge likers commenters ∧ l.profileKey = k) ∧
      ∀ l ∈ LeadDeduplicator.merge likers commenters,
        l.profileKey = k → l.interactionType = InteractionType.both := by
  have hlike : LeadDeduplicator.typeAt
      (likers.foldl LeadDeduplicator.applyLiker []) k = some .like :=
    LeadDeduplicator.typeAt_foldl_likers_mem likers [] k (Or.inl rfl) hl
  have hboth : LeadDeduplicator.typeAt
      (LeadDeduplicator.mergeAcc likers commenters) k = some .both :=
    LeadDeduplicator.typeAt_foldl_commenters_mem commenters _ k hlike hc
  obtain ⟨l₀, hlk, hty⟩ : ∃ l₀,
      LeadDeduplicator.lookupKey k (LeadDeduplicator.mergeAcc likers commenters) = some l₀ ∧
        l₀.interactionType = .both := by
    unfold LeadDeduplicator.typeAt at hboth
    cases hlkc : LeadDeduplicator.lookupKey k (LeadDeduplicator.mergeAcc likers commenters) with
    | none => rw [hlkc] at hboth; simp at hboth
    | some l₀ =>
      rw [hlkc] at hboth
      exact ⟨l₀, rfl, by simpa using hboth⟩
  have hwf := LeadDeduplicator.wf_mergeAcc likers commenters
  have hmemacc : (k, l₀) ∈ LeadDeduplicator.mergeAcc likers commenters :=
    LeadDeduplicator.mem_of_lookup _ _ _ hlk
  have hmem : l₀ ∈ LeadDeduplicator.merge likers commenters :=
    List.mem_map_of_mem Prod.snd hmemacc
  have hkey : l₀.profileKey = k := hwf.2 (k, l₀) hmemacc
  have huniq : ∀ y, y ∈ LeadDeduplicator.merge likers commenters → y.profileKey = k →
      y = l₀ := by
    intro y hy hyk
    have := LeadDeduplicator.mem_merge_lookup likers commenters y hy
    rw [hyk, hlk] at this
    exact (Option.some_injective _ this).symm
  refine ⟨⟨l₀, ⟨hmem, hkey⟩, fun y hy => huniq y hy.1 hy.2⟩, fun l hml hlk' => ?_⟩
  rw [huniq l hml hlk']
  exact hty

/-- Claim C3: every Lead in the output of `LeadDeduplicator.merge` has
`comment_count` equal to the number of comment events in the commenters
stream attributed to its profile key (one increment per comment event,
independent of like events). -/
theorem merge_commentCount_eq_comment_events (likers commenters : List RawInteraction)
    (l : Lead) (h : l ∈ LeadDeduplicator.merge likers commenters) :
    l.commentCount =
      commenters.countP (fun c => decide (c.profileKey = some l.profileKey)) := by
  have hlk := LeadDeduplicator.mem_merge_lookup likers commenters l h
  have h1 : LeadDeduplicator.countAt
      (LeadDeduplicator.mergeAcc likers commenters) l.profileKey = l.commentCount := by
    unfold LeadDeduplicator.countAt
    rw [hlk]
    rfl
  have h2 : LeadDeduplicator.countAt
      (LeadDeduplicator.mergeAcc likers commenters) l.profileKey
      = commenters.countP (fun c => decide (c.profileKey = some l.profileKey)) := by
    unfold LeadDeduplicator.mergeAcc
    rw [LeadDeduplicator.countAt_foldl_commenters,
      LeadDeduplicator.countAt_foldl_likers, LeadDeduplicator.countAt_nil,
      Nat.zero_add]
  rw [← h1, h2]

/-- Claim C4: the number of merged Leads is at most the number of distinct
liker profile keys plus the number of distinct commenter profile keys, with
equality iff no profile key occurs in both streams. -/
theorem merge_length_le_distinct_keys (likers commenters : List RawInteraction) :
    (LeadDeduplicator.merge likers commenters).length ≤
        distinctProfileKeys likers + distinctProfileKeys commenters ∧
      ((LeadDeduplicator.merge likers commenters).length =
          distinctProfileKeys likers + distinctProfileKeys commenters ↔
        ∀ k, ¬((∃ r ∈ likers, r.profileKey = some k) ∧
               (∃ c ∈ commenters, c.profileKey = some k))) := by
  classical
  have hkeysnodup := (LeadDeduplicator.wf_mergeAcc likers commenters).1
  have hlen : (LeadDeduplicator.merge likers commenters).length
      = (LeadDeduplicator.keys (LeadDeduplicator.mergeAcc likers commenters)).length := by
    unfold LeadDeduplicator.merge LeadDeduplicator.keys
    rw [List.length_map, List.length_map]
  have hfin : (LeadDeduplicator.keys (LeadDeduplicator.mergeAcc likers commenters)).toFinset
      = (likers.filterMap RawInteraction.profileKey).toFinset ∪
          (commenters.filterMap RawInteraction.profileKey).toFinset := by
    ext x
    simp only [List.mem_toFinset, Finset.mem_union,
      LeadDeduplicator.mem_keys_mergeAcc, List.mem_filterMap]
  have hcard : (LeadDeduplicator.keys (LeadDeduplicator.mergeAcc likers commenters)).length
      = ((likers.filterMap RawInteraction.profileKey).toFinset ∪
          (commenters.filterMap RawInteraction.profileKey).toFinset).card := by
    rw [← hfin, List.toFinset_card_of_nodup hkeysnodup]
  have hdl : distinctProfileKeys likers
      = (likers.filterMap RawInteraction.profileKey).toFinset.card := by
    rw [distinctProfileKeys, List.card_toFinset]
  have hdc : distinctProfileKeys commenters
      = (commenters.filterMap RawInteraction.profileKey).toFinset.card := by
    rw [distinctProfileKeys, List.card_toFinset]
  constructor
  · rw [hlen, hcard, hdl, hdc]
    exact Finset.card_union_le _ _
  · rw [hlen, hcard, hdl, hdc, Finset.card_union_eq_card_add_card, Finset.disjoint_left]
    constructor
    · rintro hd k ⟨⟨r, hr, hk⟩, ⟨c, hc, hk2⟩⟩
      exact hd (List.mem_toFinset.mpr (List.mem_filterMap.mpr ⟨r, hr, hk⟩))
        (List.mem_toFinset.mpr (List.mem_filterMap.mpr ⟨c, hc, hk2⟩))
    · intro hno a haA haB
      rcases List.mem_filterMap.mp (List.mem_toFinset.mp haA) with ⟨r, hr, hk⟩
      rcases List.mem_filterMap.mp (List.mem_toFinset.mp haB) with ⟨c, hc, hk2⟩
      exact hno a ⟨⟨r, hr, hk⟩, ⟨c, hc, hk2⟩⟩

/-- Modelled from the spec: Post `status ∈ {pending, scraping, completed, failed}`. -/
inductive Status
  | pending
  | scraping
  | completed
  | failed
  deriving DecidableEq, Repr

/-- Modelled from the spec: a Post owning its Lead set (composition),
with raw counts from the source and a nullable scrape timestamp. -/
structure Post where
  id : Nat
  postUrl : String
  status : Status
  totalLikes : Nat
  totalComments : Nat
  lastScrapedAt : Option Nat
  leads : List Lead
  deriving DecidableEq, Repr

/-- Modelled from the spec: the Post storage (posts keyed by unique id,
with a fresh-id counter). -/
structure AppState where
  posts : List Post
  nextId : Nat
  deriving DecidableEq, Repr

/-- Drop everything from the first query character on. -/
def stripQuery : List Char → List Char
  | [] => []
  | c :: rest => if c = '?' then [] else c :: stripQuery rest

/-- Modelled from the spec: URL normalization for `post_url`
(strip tracking query parameters). -/
def normalizeUrl (u : String) : String :=
  String.mk (stripQuery u.toList)

/-- Modelled from the spec: the provider's raw result for a post —
a likers stream and a commenters stream. -/
structure ProviderData where
  likers : List RawInteraction
  commenters : List RawInteraction
  deriving DecidableEq, Repr

/-- Modelled from the spec: provider failure kinds (auth, rate-limit,
not-found, transient network). -/
inductive ProviderError
  | authFailure
  | rateLimit
  | notFound
  | network
  deriving DecidableEq, Repr

namespace PostAggregate

/-- Replace the post with id `pid` by `p'` (posts are keyed by id). -/
def updatePost (s : AppState) (pid : Nat) (p' : Post) : AppState :=
  { s with posts := s.posts.map (fun q => if q.id = pid then p' else q) }

/-- Modelled from the spec: reconciliation of one freshly merged Lead
against the previous Lead set — when the same profile key recurs, the Lead
keeps the previous `enriched` state and enrichment payload. -/
def reconcileStep (old : List Lead) (m : Lead) : Lead :=
  match old.find? (fun o => o.profileKey = m.profileKey) with
  | some o => { m with enriched := o.enriched, headline := o.headline,
                       company := o.company, location := o.location,
                       profileUrl := o.profileUrl }
  | none => m

/-- Modelled from the spec: reconcile the freshly merged Lead set against
the previous set. -/
def reconcile (old : List Lead) (merged : List Lead) : List Lead :=
  merged.map (reconcileStep old)

/-- A Post's fields after a successful provider fetch: merged and
reconciled Leads, fresh raw counts, timestamp, status `completed`. -/
def completeWith (p : Post) (d : ProviderData) (now : Nat) : Post :=
  { p with status := .completed,
           leads := reconcile p.leads (LeadDeduplicator.merge d.likers d.commenters),
           totalLikes := d.likers.length,
           totalComments := d.commenters.length,
           lastScrapedAt := some now }

/-- A freshly created Post for a normalized URL (status `pending`, no
counts, no Leads yet). -/
def newPostFor (nurl : String) (pid : Nat) : Post :=
  { id := pid, postUrl := nurl, status := .pending, totalLikes := 0,
    totalComments := 0, lastScrapedAt := none, leads := [] }

/-- Modelled from the spec: `extract(post_url)` — normalizes the URL, looks
up the existing Post (creating it when absent), calls the provider (its
result is passed in as `result`), and on success merges and reconciles the
Lead set, updates counts and the timestamp, and sets status `completed`;
on provider failure sets status `failed` without touching any stored
data. -/
def extract (s : AppState) (url : String)
    (result : Except ProviderError ProviderData) (now : Nat) : AppState :=
  match s.posts.find? (fun p => p.postUrl = normalizeUrl url) with
  | some p =>
    match result with
    | .ok d => updatePost s p.id (completeWith p d now)
    | .error _ => updatePost s p.id { p with status := .failed }
  | none =>
    match result with
    | .ok d =>
        { posts := s.posts ++
            [completeWith (newPostFor (normalizeUrl url) s.nextId) d now],
          nextId := s.nextId + 1 }
    | .error _ =>
        { posts := s.posts ++
            [{ newPostFor (normalizeUrl url) s.nextId with status := .failed }],
          nextId := s.nextId + 1 }

/-- Modelled from the spec: `delete(post_id)` removes the Post (its Leads
are owned by it, so they are removed with it); deleting an absent id is a
total no-op, never an error. -/
def delete (s : AppState) (pid : Nat) : AppState :=
  { s with posts := s.posts.filter (fun p => p.id ≠ pid) }

/-- All Leads stored for a given post id. -/
def leadsOf (s : AppState) (pid : Nat) : List Lead :=
  ((s.posts.filter (fun p => p.id = pid)).map Post.leads).flatten

end PostAggregate

/-- Export format selector. -/
inductive ExportFormat
  | csv
  | excel
  deriving DecidableEq, Repr

namespace ExportGenerator

/-- Modelled from the spec: the fixed export column order — name,
headline, company, location, interaction type, comment count, enriched
flag, profile URL. -/
def exportHeader : List String :=
  ["Name", "Headline", "Company", "Location", "Interaction Type",
   "Comment Count", "Enriched", "Profile URL"]

/-- Render an interaction type the way the client displays it. -/
def interactionTypeLabel : InteractionType → String
  | .like => "like"
  | .comment => "comment"
  | .both => "both"

/-- Modelled from the spec: one export row per Lead, in the fixed column
order. -/
def leadRow (l : Lead) : List String :=
  [l.fullName, l.headline.getD "", l.company.getD "", l.location.getD "",
   interactionTypeLabel l.interactionType, Nat.repr l.commentCount,
   if l.enriched then "Yes" else "No", l.profileUrl.getD ""]

/-- The rendered table: a header row followed by one row per Lead.  Both
formats render the same row structure (they differ only in the byte
encoding, which is not modelled). -/
def exportTable (leads : List Lead) : List (List String) :=
  exportHeader :: leads.map leadRow

/-- Modelled from the spec: `export(post_id, format)` — reads the Post's
current Lead set and renders it; an unknown post id is the only error. -/
def exportPost (s : AppState) (pid : Nat) (fmt : ExportFormat) :
    Option (List (List String)) :=
  (s.posts.find? (fun p => p.id = pid)).map (fun p => exportTable p.leads)

end ExportGenerator

/-- Whitespace trimmed by JavaScript `String.prototype.trim` (the set
relevant to URL input). -/
def isJsSpace (c : Char) : Bool :=
  c = ' ' || c = '\t' || c = '\n' || c = '\r'

/-- Trim JavaScript whitespace from both ends of a character list. -/
def trimChars (l : List Char) : List Char :=
  ((l.dropWhile isJsSpace).reverse.dropWhile isJsSpace).reverse

/-- Embedding of JavaScript `s.trim()`. -/
def jsTrim (s : String) : String :=
  String.mk (trimChars s.toList)

/-- Substring containment on character lists, as JavaScript
`String.prototype.includes` computes it. -/
def listIncludes (pat : List Char) : List Char → Bool
  | [] => pat.isEmpty
  | c :: rest => pat.isPrefixOf (c :: rest) || listIncludes pat rest

/-- Embedding of JavaScript `s.includes(pat)`. -/
def jsIncludes (s pat : String) : Bool :=
  listIncludes pat.toList s.toList

/-- Outcome of the extraction form submit handler in the client: either an
extract API call carrying the request body fields, or a client-side
validation error message with no API call. -/
inductive SubmitOutcome
  | apiCall (postUrl : String) (accountId : Option String) (enrich : Bool)
  | validationError (message : String)
  deriving DecidableEq, Repr

/-- Embedding of `handleSubmit` in `src/frontend/src/pages/ExtractLeads.jsx`
(lines 32-70): an empty trimmed URL or a URL without the substring
`linkedin.com` sets a validation error and returns without calling the API;
otherwise `apiService.extractLeads(postUrl, selectedAccount || null, enrich)`
is invoked. -/
def handleSubmit (postUrl selectedAccount : String) (enrich : Bool) : SubmitOutcome :=
  if jsTrim postUrl = "" then
    .validationError "Please enter a LinkedIn post URL"
  else if ¬ jsIncludes postUrl "linkedin.com" then
    .validationError "Please enter a valid LinkedIn post URL"
  else
    .apiCall postUrl (if selectedAccount = "" then none else some selectedAccount) enrich

/-- A `GET /api/posts/{id}/leads` request as the client builds it. -/
structure LeadsQuery where
  postId : String
  skip : Nat
  limit : Nat
  interactionType : Option String
  deriving DecidableEq, Repr

/-- JavaScript truthiness applied to the optional `interaction_type`
parameter: `null` and the empty string are falsy, so the parameter is
omitted from the query. -/
def truthyParam : Option String → Option String
  | none => none
  | some s => if s = "" then none else some s

/-- Embedding of `getPostLeads` in `src/frontend/src/services/api.js`
(lines 54-60): default parameters are `skip = 0` and `limit = 100`
(a `none` argument models an omitted JavaScript argument), and
`interaction_type` is added to the params only when truthy. -/
def getPostLeads (postId : String) (skip : Option Nat) (limit : Option Nat)
    (interactionType : Option String) : LeadsQuery :=
  { postId := postId, skip := skip.getD 0, limit := limit.getD 100,
    interactionType := truthyParam interactionType }

/-- Embedding of the `getPostLeads` call in `loadData` in
`src/frontend/src/pages/PostDetails.jsx` (lines 18-41):
`apiService.getPostLeads(postId, 0, 1000, filterType === 'all' ? null : filterType)`. -/
def postDetailsLeadsQuery (postId : String) (filterType : String) : LeadsQuery :=
  getPostLeads postId (some 0) (some 1000)
    (if filterType = "all" then none else some filterType)

/-- Modelled from the spec: the server-side Lead listing backing
`GET /api/posts/{id}/leads` — filter by interaction type, then
offset+limit pagination over the stable stored order. -/
def serverLeadsPage (leads : List Lead) (q : LeadsQuery) : List Lead :=
  let filtered := match q.interactionType with
    | none => leads
    | some t => leads.filter (fun l =>
        ExportGenerator.interactionTypeLabel l.interactionType = t)
  (filtered.drop q.skip).take q.limit

theorem find?_lead_key_nodup (old : List Lead) (l : Lead) (kk : String)
    (hnd : (old.map Lead.profileKey).Nodup) (hmem : l ∈ old)
    (hkey : l.profileKey = kk) :
    old.find? (fun o => o.profileKey = kk) = some l := by
  induction old with
  | nil => simp at hmem
  | cons o tl ih =>
    rcases List.mem_cons.mp hmem with rfl | hmem'
    · exact List.find?_cons_of_pos _ (by simp [hkey])
    · have hne : o.profileKey ≠ kk := by
        intro he
        have h1 : kk ∈ tl.map Lead.profileKey :=
          hkey ▸ List.mem_map_of_mem Lead.profileKey hmem'
        have hnd' : (o.profileKey :: tl.map Lead.profileKey).Nodup := by
          simpa using hnd
        exact (List.nodup_cons.mp hnd').1 (he ▸ h1)
      rw [List.find?_cons_of_neg _ (by simp [hne])]
      exact ih (by simpa using (List.nodup_cons.mp (by simpa using hnd)).2) hmem'

theorem mem_reconcile (old merged : List Lead) (m : Lead)
    (h : m ∈ PostAggregate.reconcile old merged) :
    ∃ m₀ ∈ merged, m = PostAggregate.reconcileStep old m₀ := by
  unfold PostAggregate.reconcile at h
  rcases List.mem_map.mp h with ⟨m₀, hm₀, hm⟩
  exact ⟨m₀, hm₀, hm.symm⟩

theorem updatePost_map_id (s : AppState) (pid : Nat) (p' : Post) (h : p'.id = pid) :
    (PostAggregate.updatePost s pid p').posts.map Post.id = s.posts.map Post.id := by
  unfold PostAggregate.updatePost
  simp only [List.map_map]
  apply List.map_congr_left
  intro q hq
  by_cases hqe : q.id = pid
  · simp [Function.comp, hqe, h]
  · simp [Function.comp, hqe]

theorem mem_updatePost (s : AppState) (pid : Nat) (p' : Post) (q : Post)
    (h : q ∈ (PostAggregate.updatePost s pid p').posts) :
    ∃ q₀ ∈ s.posts, q = (if q₀.id = pid then p' else q₀) := by
  unfold PostAggregate.updatePost at h
  rcases List.mem_map.mp h with ⟨q₀, hq₀, hq⟩
  exact ⟨q₀, hq₀, hq.symm⟩

theorem reconcileStep_profileKey (old : List Lead) (m₀ : Lead) :
    (PostAggregate.reconcileStep old m₀).profileKey = m₀.profileKey := by
  unfold PostAggregate.reconcileStep
  cases old.find? (fun o => o.profileKey = m₀.profileKey) with
  | none => rfl
  | some o => rfl

/-- Claim C5: re-extracting the same normalized `post_url` updates the
existing Post rather than creating a second one (the list of post ids is
unchanged), and a Lead with `enriched = true` whose profile key recurs
stays enriched and keeps its enrichment payload. -/
theorem extract_same_url_no_second_post
    (s : AppState) (url : String) (result : Except ProviderError ProviderData)
    (now : Nat) (p₀ : Post)
    (hfind : s.posts.find? (fun p => p.postUrl = normalizeUrl url) = some p₀)
    (hkeys : (p₀.leads.map Lead.profileKey).Nodup) :
    (PostAggregate.extract s url result now).posts.map Post.id = s.posts.map Post.id ∧
      ∀ p' ∈ (PostAggregate.extract s url result now).posts, p'.id = p₀.id →
        ∀ l ∈ p₀.leads, l.enriched = true →
          ∀ m ∈ p'.leads, m.profileKey = l.profileKey →
            m.enriched = true ∧ m.headline = l.headline ∧ m.company = l.company ∧
              m.location = l.location ∧ m.profileUrl = l.profileUrl := by
  cases result with
  | ok d =>
    have hs : PostAggregate.extract s url (.ok d) now
        = PostAggregate.updatePost s p₀.id (PostAggregate.completeWith p₀ d now) := by
      unfold PostAggregate.extract
      rw [hfind]
    rw [hs]
    refine ⟨updatePost_map_id s p₀.id _ rfl, ?_⟩
    intro p' hp' hid l hl hle m hm hkm
    rcases mem_updatePost s p₀.id _ p' hp' with ⟨q₀, hq₀, hq⟩
    by_cases hqe : q₀.id = p₀.id
    · rw [if_pos hqe] at hq
      subst hq
      have hm' : m ∈ PostAggregate.reconcile p₀.leads
          (LeadDeduplicator.merge d.likers d.commenters) := hm
      rcases mem_reconcile _ _ m hm' with ⟨m₀, hm₀, hms⟩
      have hkey0 : m.profileKey = m₀.profileKey := by
        rw [hms]; exact reconcileStep_profileKey _ _
      have hlk : l.profileKey = m₀.profileKey := hkm.symm.trans hkey0
      have hfind0 : p₀.leads.find? (fun o => o.profileKey = m₀.profileKey) = some l :=
        find?_lead_key_nodup p₀.leads l m₀.profileKey hkeys hl hlk
      rw [hms]
      unfold PostAggregate.reconcileStep
      rw [hfind0]
      exact ⟨hle, rfl, rfl, rfl, rfl⟩
    · rw [if_neg hqe] at hq
      subst hq
      exact absurd hid hqe
  | error e =>
    have hs : PostAggregate.extract s url (.error e) now
        = PostAggregate.updatePost s p₀.id { p₀ with status := .failed } := by
      unfold PostAggregate.extract
      rw [hfind]
    rw [hs]
    refine ⟨updatePost_map_id s p₀.id _ rfl, ?_⟩
    intro p' hp' hid l hl hle m hm hkm
    rcases mem_updatePost s p₀.id _ p' hp' with ⟨q₀, hq₀, hq⟩
    by_cases hqe : q₀.id = p₀.id
    · rw [if_pos hqe] at hq
      subst hq
      have hm' : m ∈ p₀.leads := hm
      have hml : m = l := List.inj_on_of_nodup_map hkeys hm' hl hkm
      subst hml
      exact ⟨hle, rfl, rfl, rfl, rfl⟩
    · rw [if_neg hqe] at hq
      subst hq
      exact absurd hid hqe

/-- Claim C6: `delete(post_id)` removes the Post and all of its Leads;
deleting an absent (or already-deleted) id is a no-op success, so delete
is idempotent. -/
theorem delete_cascades_idempotent (s : AppState) (pid : Nat) :
    (∀ p ∈ (PostAggregate.delete s pid).posts, p.id ≠ pid) ∧
      PostAggregate.leadsOf (PostAggregate.delete s pid) pid = [] ∧
      PostAggregate.delete (PostAggregate.delete s pid) pid
        = PostAggregate.delete s pid ∧
      ((∀ p ∈ s.posts, p.id ≠ pid) → PostAggregate.delete s pid = s) := by
  refine ⟨?_, ?_, ?_, ?_⟩
  · intro p hp
    simpa using (List.mem_filter.mp hp).2
  · unfold PostAggregate.leadsOf PostAggregate.delete
    have hnil : ((s.posts.filter (fun p => p.id ≠ pid)).filter
        (fun p => p.id = pid)) = [] := by
      rw [List.filter_eq_nil_iff]
      intro p hp
      have h2 := (List.mem_filter.mp hp).2
      simp only [decide_not, Bool.not_eq_eq_eq_not, Bool.not_true,
        decide_eq_false_iff_not] at h2
      simpa using h2
    simp only [hnil, List.map_nil, List.flatten_nil]
  · unfold PostAggregate.delete
    have hself : (s.posts.filter (fun p => p.id ≠ pid)).filter (fun p => p.id ≠ pid)
        = s.posts.filter (fun p => p.id ≠ pid) :=
      List.filter_eq_self.mpr (fun a ha => (List.mem_filter.mp ha).2)
    simp only [hself]
  · intro h
    unfold PostAggregate.delete
    have hself : s.posts.filter (fun p => p.id ≠ pid) = s.posts :=
      List.filter_eq_self.mpr (fun a ha => by simpa using h a ha)
    rw [hself]

/-- Claim C7: a provider error during `extract` is atomic for an existing
Post: on error, only the status changes to `failed` (Leads, counts and
timestamp are untouched and every other Post is unchanged); on success the
status becomes `completed` with the fully merged, reconciled Lead set. -/
theorem extract_provider_error_atomic
    (s : AppState) (url : String) (now : Nat) (p₀ : Post)
    (hfind : s.posts.find? (fun p => p.postUrl = normalizeUrl url) = some p₀) :
    (∀ e : ProviderError,
        ∀ q ∈ (PostAggregate.extract s url (.error e) now).posts,
          (q.id ≠ p₀.id → q ∈ s.posts) ∧
            (q.id = p₀.id → q.status = .failed ∧ q.leads = p₀.leads ∧
              q.totalLikes = p₀.totalLikes ∧ q.totalComments = p₀.totalComments ∧
              q.lastScrapedAt = p₀.lastScrapedAt)) ∧
      ∀ d : ProviderData, ∀ q ∈ (PostAggregate.extract s url (.ok d) now).posts,
        q.id = p₀.id → q.status = .completed ∧
          q.leads = PostAggregate.reconcile p₀.leads
            (LeadDeduplicator.merge d.likers d.commenters) := by
  constructor
  · intro e q hq
    have hs : PostAggregate.extract s url (.error e) now
        = PostAggregate.updatePost s p₀.id { p₀ with status := .failed } := by
      unfold PostAggregate.extract
      rw [hfind]
    rw [hs] at hq
    rcases mem_updatePost s p₀.id _ q hq with ⟨q₀, hq₀, hqe⟩
    by_cases hid : q₀.id = p₀.id
    · rw [if_pos hid] at hqe
      subst hqe
      exact ⟨fun hne => absurd rfl hne, fun _ => ⟨rfl, rfl, rfl, rfl, rfl⟩⟩
    · rw [if_neg hid] at hqe
      subst hqe
      exact ⟨fun _ => hq₀, fun he => absurd he hid⟩
  · intro d q hq hid
    have hs : PostAggregate.extract s url (.ok d) now
        = PostAggregate.updatePost s p₀.id (PostAggregate.completeWith p₀ d now) := by
      unfold PostAggregate.extract
      rw [hfind]
    rw [hs] at hq
    rcases mem_updatePost s p₀.id _ q hq with ⟨q₀, hq₀, hqe⟩
    by_cases hid0 : q₀.id = p₀.id
    · rw [if_pos hid0] at hqe
      subst hqe
      exact ⟨rfl, rfl⟩
    · rw [if_neg hid0] at hqe
      subst hqe
      exact absurd hid hid0

/-- Claim C8: exporting a Post whose Lead set is empty yields the
header-only table (fixed column order) for both csv and excel, and is not
an error. -/
theorem export_empty_leads_header_only (s : AppState) (pid : Nat) (p : Post)
    (hfind : s.posts.find? (fun q => q.id = pid) = some p)
    (hleads : p.leads = []) :
    ExportGenerator.exportPost s pid .csv = some [ExportGenerator.exportHeader] ∧
      ExportGenerator.exportPost s pid .excel
        = some [ExportGenerator.exportHeader] := by
  unfold ExportGenerator.exportPost
  rw [hfind]
  simp [ExportGenerator.exportTable, hleads]

/-- Claim C9: the extraction form sends an extract request iff the trimmed
post URL is non-empty and the URL contains the substring `linkedin.com`;
otherwise it produces a validation error message and no API call. -/
theorem handleSubmit_sends_iff_valid (postUrl selectedAccount : String)
    (enrich : Bool) :
    ((∃ acc, handleSubmit postUrl selectedAccount enrich
        = SubmitOutcome.apiCall postUrl acc enrich) ↔
      (jsTrim postUrl ≠ "" ∧ jsIncludes postUrl "linkedin.com" = true)) ∧
      ∀ m, handleSubmit postUrl selectedAccount enrich
          = SubmitOutcome.validationError m →
        (jsTrim postUrl = "" ∨ jsIncludes postUrl "linkedin.com" = false) := by
  unfold handleSubmit
  by_cases h1 : jsTrim postUrl = ""
  · rw [if_pos h1]
    constructor
    · constructor
      · rintro ⟨acc, hacc⟩
        exact absurd hacc (by simp)
      · rintro ⟨hne, _⟩
        exact absurd h1 hne
    · intro m _
      exact Or.inl h1
  · rw [if_neg h1]
    by_cases h2 : jsIncludes postUrl "linkedin.com" = true
    · rw [if_neg (by simp [h2])]
      constructor
      · constructor
        · intro _
          exact ⟨h1, h2⟩
        · intro _
          exact ⟨if selectedAccount = "" then none else some selectedAccount, rfl⟩
      · intro m hm
        exact absurd hm (by simp)
    · rw [if_pos (by simpa using h2)]
      constructor
      · constructor
        · rintro ⟨acc, hacc⟩
          exact absurd hacc (by simp)
        · rintro ⟨_, hinc⟩
          exact absurd hinc h2
      · intro m _
        exact Or.inr (by simpa using h2)

/-- Claim C10: the post-details page always requests leads with skip 0 and
limit 1000 (overriding the api helper's default limit of 100), omits
`interaction_type` exactly when the selected filter is `all`, and any
server page for that request holds at most 1000 leads. -/
theorem postDetails_leads_request_shape (postId filterType : String)
    (hf : filterType ∈ ["all", "like", "comment", "both"]) :
    (postDetailsLeadsQuery postId filterType).skip = 0 ∧
      (postDetailsLeadsQuery postId filterType).limit = 1000 ∧
      ((postDetailsLeadsQuery postId filterType).interactionType = none ↔
        filterType = "all") ∧
      (getPostLeads postId none none none).limit = 100 ∧
      ∀ leads : List Lead,
        (serverLeadsPage leads (postDetailsLeadsQuery postId filterType)).length
          ≤ 1000 := by
  refine ⟨rfl, rfl, ?_, rfl, ?_⟩
  · fin_cases hf <;> simp [postDetailsLeadsQuery, getPostLeads, truthyParam]
  · intro leads
    have : (postDetailsLeadsQuery postId filterType).limit = 1000 := rfl
    unfold serverLeadsPage
    rw [this]
    exact List.length_take_le 1000 _

/-- Concrete liker event used to instantiate theorems at closed inputs. -/
def exLiker : RawInteraction := { profileKey := some "A", fullName := "Alice" }

/-- Concrete commenter event for the same profile key. -/
def exCommenter : RawInteraction := { profileKey := some "A", fullName := "Alice" }

/-- The Lead produced by merging `[exLiker]` with two `exCommenter` events. -/
def exMergedBoth : Lead :=
  { profileKey := "A", fullName := "Alice", headline := none, company := none,
    location := none, profileUrl := none, interactionType := .both,
    commentCount := 2, enriched := false }

/-- A concrete enriched Lead with a populated payload. -/
def exEnrichedLead : Lead :=
  { profileKey := "A", fullName := "Alice", headline := some "CTO",
    company := some "Acme", location := some "Paris", profileUrl := some "u",
    interactionType := .like, commentCount := 0, enriched := true }

/-- A concrete previously-extracted Post holding the enriched Lead. -/
def exPost : Post :=
  { id := 1, postUrl := "li/p1", status := .completed, totalLikes := 1,
    totalComments := 0, lastScrapedAt := some 5, leads := [exEnrichedLead] }

/-- A concrete state with one Post. -/
def exState : AppState := { posts := [exPost], nextId := 2 }

/-- A concrete Post with an empty Lead set. -/
def exEmptyPost : Post :=
  { id := 3, postUrl := "li/p3", status := .completed, totalLikes := 0,
    totalComments := 0, lastScrapedAt := some 7, leads := [] }

/-- A concrete state holding the empty-Lead-set Post. -/
def exStateEmpty : AppState := { posts := [exEmptyPost], nextId := 4 }

/-- A concrete provider result. -/
def exProviderData : ProviderData :=
  { likers := [exLiker], commenters := [exCommenter] }

/-- Witness for claim C2 at the concrete input from the spec example. -/
theorem merge_both_streams_unique_both_witness :
    exMergedBoth.interactionType = InteractionType.both :=
  (merge_both_streams_unique_both "A" [exLiker] [exCommenter, exCommenter]
      ⟨exLiker, by decide⟩ ⟨exCommenter, by decide⟩).2
    exMergedBoth (by decide) (by decide)

/-- Witness for claim C3 at the spec's example: one liker event and two
comment events for profile key A give comment count 2. -/
theorem merge_commentCount_witness :
    exMergedBoth.commentCount
      = List.countP (fun c => decide (c.profileKey = some exMergedBoth.profileKey))
          [exCommenter, exCommenter] :=
  merge_commentCount_eq_comment_events [exLiker] [exCommenter, exCommenter]
    exMergedBoth (by decide)

/-- Witness for claim C5 at a concrete state: re-extracting the same URL
(with a tracking query appended) keeps the post id list unchanged. -/
theorem extract_same_url_witness :
    (PostAggregate.extract exState "li/p1?utm=x"
        (Except.ok exProviderData) 9).posts.map Post.id
      = exState.posts.map Post.id :=
  (extract_same_url_no_second_post exState "li/p1?utm=x"
      (Except.ok exProviderData) 9 exPost (by decide) (by decide)).1

/-- Witness for claim C7 at a concrete state: after a provider error the
stored Post keeps its Leads, counts and timestamp. -/
theorem extract_provider_error_atomic_witness :
    ({ exPost with status := Status.failed } : Post).status = Status.failed ∧
      ({ exPost with status := Status.failed } : Post).leads = exPost.leads ∧
      ({ exPost with status := Status.failed } : Post).totalLikes = exPost.totalLikes ∧
      ({ exPost with status := Status.failed } : Post).totalComments
        = exPost.totalComments ∧
      ({ exPost with status := Status.failed } : Post).lastScrapedAt
        = exPost.lastScrapedAt :=
  ((extract_provider_error_atomic exState "li/p1" 9 exPost (by decide)).1
      ProviderError.network { exPost with status := Status.failed } (by decide)).2 rfl

/-- Witness for claim C8 at a concrete state with an empty Lead set. -/
theorem export_empty_leads_witness :
    ExportGenerator.exportPost exStateEmpty 3 ExportFormat.csv
        = some [ExportGenerator.exportHeader] ∧
      ExportGenerator.exportPost exStateEmpty 3 ExportFormat.excel
        = some [ExportGenerator.exportHeader] :=
  export_empty_leads_header_only exStateEmpty 3 exEmptyPost (by decide) rfl

/-- Witness for claim C10 at the concrete filter value `all`. -/
theorem postDetails_leads_request_witness :
    (postDetailsLeadsQuery "1" "all").skip = 0 ∧
      (postDetailsLeadsQuery "1" "all").limit = 1000 ∧
      (postDetailsLeadsQuery "1" "all").interactionType = none := by
  have h := postDetails_leads_request_shape "1" "all" (by decide)
  exact ⟨h.1, h.2.1, h.2.2.1.mpr rfl⟩
